import Mathlib

/-!
# Verification of the llm-streamliner compression/packaging library

This file is a shallow embedding of the repository's three source files
(`src/compression.rs`, `src/lib.rs`, `src/storage.rs`) into Lean 4,
together with proofs of the behavioural claims made by the specification.

Modelling conventions:
* Rust byte sequences (`Vec<u8>`, `&[u8]`) are `List Nat` whose elements
  are below 256 where that matters.
* Rust `Result<T, E>` is `Except E T`; `?` becomes an explicit `match`.
* The `async` wrappers are identity at this level of abstraction: every
  operation is synchronous CPU work (the spec says so explicitly), so the
  embedding uses plain functions.
* External library behaviour (flate2, serde_json, tokio::fs) is modelled
  by executable Lean functions that are faithful to the libraries'
  documented contracts at the granularity the claims require; each such
  model carries a doc comment saying exactly what is modelled.
-/

namespace Streamliner

/-! ## UTF-8 (model of Rust's `str` invariant and `str::from_utf8` validation)

A Rust `&str` is a byte slice that is valid UTF-8; `as_bytes` exposes the
UTF-8 encoding and `read_to_string` validates UTF-8 strictly (rejecting
overlong forms, surrogates and code points above 0x10FFFF). -/

/-- UTF-8 encoding of one Unicode scalar value `n` (the standard 1–4 byte
encoding used by Rust's `str::as_bytes`). -/
def utf8EncodeCp (n : Nat) : List Nat :=
  if n < 0x80 then [n]
  else if n < 0x800 then [0xC0 + n / 64, 0x80 + n % 64]
  else if n < 0x10000 then [0xE0 + n / 4096, 0x80 + n / 64 % 64, 0x80 + n % 64]
  else [0xF0 + n / 262144, 0x80 + n / 4096 % 64, 0x80 + n / 64 % 64, 0x80 + n % 64]

/-- UTF-8 encoding of a list of characters (model of `str::as_bytes`). -/
def utf8Encode : List Char → List Nat
  | [] => []
  | c :: cs => utf8EncodeCp c.toNat ++ utf8Encode cs

/-- Turn a code point into a `Char` if it is a Unicode scalar value. -/
def mkCharOpt (n : Nat) : Option Char :=
  if _h : n.isValidChar then some (Char.ofNat n) else none

/-- Prepend the character for code point `v` to a decoded tail. -/
def decCont (v : Nat) (k : Option (List Char)) : Option (List Char) :=
  match mkCharOpt v with
  | some ch => k.map (ch :: ·)
  | none => none

/-- Decode one UTF-8 encoded scalar value from the front of a byte list,
returning the code point and the remaining bytes.  This models the
per-character step of the validation performed by `std::str::from_utf8`
(which `Read::read_to_string` applies to the decompressed bytes): it
rejects overlong encodings, surrogate code points, code points above
`0x10FFFF`, truncated sequences and stray continuation bytes.  The
accepted first-byte/second-byte ranges follow the table in
`core/str/validations.rs`. -/
def utf8DecodeOne : List Nat → Option (Nat × List Nat)
  | [] => none
  | b0 :: rest =>
    if b0 < 0x80 then some (b0, rest)
    else if b0 < 0xC2 then none
    else if b0 < 0xE0 then
      match rest with
      | b1 :: rest1 =>
        if 0x80 ≤ b1 ∧ b1 < 0xC0 then
          some ((b0 - 0xC0) * 64 + (b1 - 0x80), rest1)
        else none
      | [] => none
    else if b0 < 0xF0 then
      match rest with
      | b1 :: b2 :: rest2 =>
        if (if b0 = 0xE0 then 0xA0 else 0x80) ≤ b1 ∧ b1 < (if b0 = 0xED then 0xA0 else 0xC0) ∧
            0x80 ≤ b2 ∧ b2 < 0xC0 then
          some ((b0 - 0xE0) * 4096 + (b1 - 0x80) * 64 + (b2 - 0x80), rest2)
        else none
      | _ => none
    else if b0 < 0xF5 then
      match rest with
      | b1 :: b2 :: b3 :: rest3 =>
        if (if b0 = 0xF0 then 0x90 else 0x80) ≤ b1 ∧ b1 < (if b0 = 0xF4 then 0x90 else 0xC0) ∧
            0x80 ≤ b2 ∧ b2 < 0xC0 ∧ 0x80 ≤ b3 ∧ b3 < 0xC0 then
          some ((b0 - 0xF0) * 262144 + (b1 - 0x80) * 4096 + (b2 - 0x80) * 64 + (b3 - 0x80), rest3)
        else none
      | _ => none
    else none

/-- Fuel-driven loop of the strict UTF-8 decoder.  `utf8DecodeOne` consumes
at least one byte per step, so fuel equal to the byte count always
suffices; the fuel argument only makes the recursion structural. -/
def utf8DecodeAux : Nat → List Nat → Option (List Char)
  | 0, l => if l.isEmpty then some [] else none
  | f + 1, l =>
    if l.isEmpty then some []
    else
      match utf8DecodeOne l with
      | some (v, rest) => decCont v (utf8DecodeAux f rest)
      | none => none

/-- Strict UTF-8 decoder (model of `std::str::from_utf8` validation). -/
def utf8Decode (l : List Nat) : Option (List Char) :=
  utf8DecodeAux l.length l

theorem mkCharOpt_toNat (c : Char) : mkCharOpt c.toNat = some c := by
  have hval : c.toNat.isValidChar := c.valid
  rw [mkCharOpt, dif_pos hval, Char.ofNat_toNat]

theorem decCont_toNat (c : Char) (k : Option (List Char)) :
    decCont c.toNat k = k.map (c :: ·) := by
  rw [decCont, mkCharOpt_toNat]

set_option maxHeartbeats 1000000 in
/-- Decoding one scalar value inverts encoding of a valid `Char`. -/
theorem utf8DecodeOne_encodeChar (c : Char) (bs : List Nat) :
    utf8DecodeOne (utf8EncodeCp c.toNat ++ bs) = some (c.toNat, bs) := by
  have hv : c.toNat < 0xd800 ∨ (0xdfff < c.toNat ∧ c.toNat < 0x110000) := c.valid
  by_cases h1 : c.toNat < 0x80
  · rw [utf8EncodeCp, if_pos h1]
    rw [List.cons_append, List.nil_append]
    simp only [utf8DecodeOne]
    rw [if_pos h1]
  · by_cases h2 : c.toNat < 0x800
    · rw [utf8EncodeCp, if_neg h1, if_pos h2]
      rw [List.cons_append, List.cons_append, List.nil_append]
      simp only [utf8DecodeOne]
      rw [if_neg (by omega), if_neg (by omega), if_pos (by omega)]
      rw [if_pos ⟨by omega, by omega⟩]
      rw [show (0xC0 + c.toNat / 64 - 0xC0) * 64 + (0x80 + c.toNat % 64 - 0x80) = c.toNat by omega]
    · by_cases h3 : c.toNat < 0x10000
      · rw [utf8EncodeCp, if_neg h1, if_neg h2, if_pos h3]
        rw [List.cons_append, List.cons_append, List.cons_append, List.nil_append]
        simp only [utf8DecodeOne]
        rw [if_neg (by omega), if_neg (by omega), if_neg (by omega), if_pos (by omega)]
        by_cases hA : c.toNat < 0x1000
        · rw [if_pos (show 0xE0 + c.toNat / 4096 = 0xE0 by omega)]
          rw [if_neg (show ¬ (0xE0 + c.toNat / 4096 = 0xED) by omega)]
          rw [if_pos ⟨by omega, by omega, by omega, by omega⟩]
          rw [show (0xE0 + c.toNat / 4096 - 0xE0) * 4096 + (0x80 + c.toNat / 64 % 64 - 0x80) * 64 +
              (0x80 + c.toNat % 64 - 0x80) = c.toNat by omega]
        · by_cases hB : 0xE0 + c.toNat / 4096 = 0xED
          · rw [if_neg (show ¬ (0xE0 + c.toNat / 4096 = 0xE0) by omega)]
            rw [if_pos hB]
            rw [if_pos ⟨by omega, by omega, by omega, by omega⟩]
            rw [show (0xE0 + c.toNat / 4096 - 0xE0) * 4096 + (0x80 + c.toNat / 64 % 64 - 0x80) * 64 +
                (0x80 + c.toNat % 64 - 0x80) = c.toNat by omega]
          · rw [if_neg (show ¬ (0xE0 + c.toNat / 4096 = 0xE0) by omega)]
            rw [if_neg hB]
            rw [if_pos ⟨by omega, by omega, by omega, by omega⟩]
            rw [show (0xE0 + c.toNat / 4096 - 0xE0) * 4096 + (0x80 + c.toNat / 64 % 64 - 0x80) * 64 +
                (0x80 + c.toNat % 64 - 0x80) = c.toNat by omega]
      · rw [utf8EncodeCp, if_neg h1, if_neg h2, if_neg h3]
        rw [List.cons_append, List.cons_append, List.cons_append, List.cons_append,
          List.nil_append]
        simp only [utf8DecodeOne]
        have h4 : c.toNat < 0x110000 := by omega
        rw [if_neg (by omega), if_neg (by omega), if_neg (by omega), if_neg (by omega),
          if_pos (by omega)]
        by_cases hA : c.toNat < 0x40000
        · rw [if_pos (show 0xF0 + c.toNat / 262144 = 0xF0 by omega)]
          rw [if_neg (show ¬ (0xF0 + c.toNat / 262144 = 0xF4) by omega)]
          rw [if_pos ⟨by omega, by omega, by omega, by omega, by omega, by omega⟩]
          rw [show (0xF0 + c.toNat / 262144 - 0xF0) * 262144 + (0x80 + c.toNat / 4096 % 64 - 0x80) * 4096 +
              (0x80 + c.toNat / 64 % 64 - 0x80) * 64 + (0x80 + c.toNat % 64 - 0x80) = c.toNat by omega]
        · by_cases hB : 0xF0 + c.toNat / 262144 = 0xF4
          · rw [if_neg (show ¬ (0xF0 + c.toNat / 262144 = 0xF0) by omega)]
            rw [if_pos hB]
            rw [if_pos ⟨by omega, by omega, by omega, by omega, by omega, by omega⟩]
            rw [show (0xF0 + c.toNat / 262144 - 0xF0) * 262144 + (0x80 + c.toNat / 4096 % 64 - 0x80) * 4096 +
                (0x80 + c.toNat / 64 % 64 - 0x80) * 64 + (0x80 + c.toNat % 64 - 0x80) = c.toNat by omega]
          · rw [if_neg (show ¬ (0xF0 + c.toNat / 262144 = 0xF0) by omega)]
            rw [if_neg hB]
            rw [if_pos ⟨by omega, by omega, by omega, by omega, by omega, by omega⟩]
            rw [show (0xF0 + c.toNat / 262144 - 0xF0) * 262144 + (0x80 + c.toNat / 4096 % 64 - 0x80) * 4096 +
                (0x80 + c.toNat / 64 % 64 - 0x80) * 64 + (0x80 + c.toNat % 64 - 0x80) = c.toNat by omega]

theorem utf8EncodeCp_ne_nil (n : Nat) : utf8EncodeCp n ≠ [] := by
  rw [utf8EncodeCp]
  split_ifs <;> simp

/-- One decoding step over an encoded character. -/
theorem utf8DecodeAux_encodeChar (c : Char) (bs : List Nat) (f : Nat) :
    utf8DecodeAux (f + 1) (utf8EncodeCp c.toNat ++ bs) = decCont c.toNat (utf8DecodeAux f bs) := by
  obtain ⟨e0, et, he⟩ : ∃ e0 et, utf8EncodeCp c.toNat = e0 :: et := by
    cases h : utf8EncodeCp c.toNat with
    | nil => exact absurd h (utf8EncodeCp_ne_nil _)
    | cons x xs => exact ⟨x, xs, rfl⟩
  rw [utf8DecodeAux, if_neg (by rw [he, List.cons_append]; simp)]
  rw [utf8DecodeOne_encodeChar c bs]

theorem utf8DecodeAux_encode (cs : List Char) :
    ∀ f, cs.length ≤ f → utf8DecodeAux f (utf8Encode cs) = some cs := by
  induction cs with
  | nil => intro f _; cases f <;> rfl
  | cons c cs ih =>
    intro f hf
    obtain ⟨f1, rfl⟩ : ∃ f1, f = f1 + 1 := ⟨f - 1, by simp at hf; omega⟩
    rw [utf8Encode, utf8DecodeAux_encodeChar, ih f1 (by simp at hf; omega), decCont_toNat]
    rfl

theorem utf8Encode_length_ge (cs : List Char) : cs.length ≤ (utf8Encode cs).length := by
  induction cs with
  | nil => simp [utf8Encode]
  | cons c cs ih =>
    rw [utf8Encode, List.length_append, List.length_cons]
    have h1 : 1 ≤ (utf8EncodeCp c.toNat).length := by
      cases h : utf8EncodeCp c.toNat with
      | nil => exact absurd h (utf8EncodeCp_ne_nil _)
      | cons x xs => simp
    omega

/-- The UTF-8 round trip on character lists. -/
theorem utf8Decode_utf8Encode (cs : List Char) : utf8Decode (utf8Encode cs) = some cs :=
  utf8DecodeAux_encode cs _ (utf8Encode_length_ge cs)

/-! ## zlib container (model of flate2's `ZlibEncoder`/`ZlibDecoder`)

The claims about the built-in codec concern the zlib *container* contract:
a two-byte header (validated by the decoder: compression method 8,
window size ≤ 7, header checksum divisible by 31, no preset dictionary),
a DEFLATE body, and a big-endian Adler-32 trailer over the uncompressed
data.  The DEFLATE entropy coding itself is a bijection on byte
sequences supplied by flate2; the model represents the body by the
identity transform (as in a stored/uncompressed DEFLATE stream), which
preserves exactly the properties the specification claims: the decoder
inverts the encoder, and framing or checksum corruption is rejected. -/

/-- One step of the Adler-32 state update. -/
def adlerStep : Nat × Nat → Nat → Nat × Nat
  | (s1, s2), b => ((s1 + b) % 65521, (s2 + (s1 + b) % 65521) % 65521)

/-- Adler-32 checksum of a byte sequence, as the four big-endian trailer
bytes of a zlib stream. -/
def adler32Bytes (bs : List Nat) : List Nat :=
  match bs.foldl adlerStep (1, 0) with
  | (s1, s2) => [s2 / 256, s2 % 256, s1 / 256, s1 % 256]

theorem adler32Bytes_length (bs : List Nat) : (adler32Bytes bs).length = 4 := by
  rw [adler32Bytes]
  rfl

/-- Model of `ZlibEncoder::new(Vec::new(), Compression::default())` followed
by `write_all`/`finish`: emit the standard default-compression zlib header
`78 9C`, the body, and the Adler-32 trailer. -/
def zlibDeflate (bs : List Nat) : List Nat :=
  0x78 :: 0x9C :: (bs ++ adler32Bytes bs)

/-- Model of `ZlibDecoder::read_to_end`: validate the zlib header
(compression method must be 8, window size at most 7, the 16-bit header
value divisible by 31, no preset dictionary), split off the 4-byte
Adler-32 trailer, and verify it against the decoded body.  Any framing
or checksum violation produces the flate2 error text
`corrupt deflate stream`. -/
def zlibInflate (bs : List Nat) : Except String (List Nat) :=
  match bs with
  | cmf :: flg :: rest =>
    if cmf % 16 ≠ 8 then .error "corrupt deflate stream"
    else if cmf / 16 > 7 then .error "corrupt deflate stream"
    else if (cmf * 256 + flg) % 31 ≠ 0 then .error "corrupt deflate stream"
    else if flg / 32 % 2 ≠ 0 then .error "corrupt deflate stream"
    else if rest.length < 4 then .error "corrupt deflate stream"
    else
      if adler32Bytes (rest.take (rest.length - 4)) = rest.drop (rest.length - 4) then
        .ok (rest.take (rest.length - 4))
      else .error "corrupt deflate stream"
  | _ => .error "corrupt deflate stream"

/-- Inflating inverts deflating. -/
theorem zlibInflate_zlibDeflate (bs : List Nat) : zlibInflate (zlibDeflate bs) = .ok bs := by
  rw [zlibDeflate]
  simp only [zlibInflate]
  rw [if_neg (by omega), if_neg (by omega), if_neg (by omega), if_neg (by omega)]
  have hlen : (bs ++ adler32Bytes bs).length = bs.length + 4 := by
    rw [List.length_append, adler32Bytes_length]
  rw [if_neg (by omega)]
  have htake : (bs ++ adler32Bytes bs).take ((bs ++ adler32Bytes bs).length - 4) = bs := by
    rw [hlen, show bs.length + 4 - 4 = bs.length from by omega, List.take_left]
  have hdrop : (bs ++ adler32Bytes bs).drop ((bs ++ adler32Bytes bs).length - 4) =
      adler32Bytes bs := by
    rw [hlen, show bs.length + 4 - 4 = bs.length from by omega, List.drop_left]
  rw [htake, hdrop, if_pos rfl]

/-! ## Error type and the built-in codec (`src/lib.rs`, `src/compression.rs`)

`StreamlinerError` is the library's error enum.  The payloads are the
display strings of the wrapped causes (an `std::io::Error` for
`CompressionError`, a `serde_json::Error` for `SerializationError`). -/

inductive StreamlinerError where
  | CompressionError (msg : String)
  | ExpansionError (msg : String)
  | SerializationError (msg : String)
deriving DecidableEq

/-- A `Compressor` implementation is a function from the context string to
compressed bytes or an error (the trait's single method). -/
abbrev Compressor := String → Except StreamlinerError (List Nat)

/-- An `Expander` implementation is a function from compressed bytes to the
recovered string or an error. -/
abbrev Expander := List Nat → Except StreamlinerError String

/-- `ZlibCompressor::compress`: writes the UTF-8 bytes of `context`
through a `ZlibEncoder` into an in-memory `Vec` and finishes the stream.
Writing into a `Vec` cannot fail, so the `?` operators never take the
error branch and the result is always `Ok`. -/
def ZlibCompressor.compress (context : String) : Except StreamlinerError (List Nat) :=
  .ok (zlibDeflate (utf8Encode context.data))

/-- `ZlibExpander::expand`: runs a `ZlibDecoder` over the input via
`read_to_string`, which decompresses and then validates UTF-8; any
decoding failure is mapped to `ExpansionError(e.to_string())`.  The
invalid-UTF-8 message is the one `read_to_string` produces. -/
def ZlibExpander.expand (compressed : List Nat) : Except StreamlinerError String :=
  match zlibInflate compressed with
  | .error e => .error (.ExpansionError e)
  | .ok data =>
    match utf8Decode data with
    | none => .error (.ExpansionError "stream did not contain valid UTF-8")
    | some cs => .ok (String.mk cs)

/-- Expanding the compression of any string gives that string back. -/
theorem zlib_roundtrip (s : String) :
    (ZlibCompressor.compress s).bind ZlibExpander.expand = .ok s := by
  rw [ZlibCompressor.compress, Except.bind]
  rw [ZlibExpander.expand, zlibInflate_zlibDeflate]
  simp only []
  rw [utf8Decode_utf8Encode]

/-- Decide whether a byte sequence would survive `ZlibExpander::expand`:
it must inflate successfully and the inflated bytes must be valid UTF-8. -/
def validExpandInput (bs : List Nat) : Bool :=
  match zlibInflate bs with
  | .error _ => false
  | .ok d => (utf8Decode d).isSome

theorem zlibInflate_error_msg (bs : List Nat) (e : String) (h : zlibInflate bs = .error e) :
    e = "corrupt deflate stream" := by
  match bs with
  | [] =>
    have h2 : Except.error (α := List Nat) "corrupt deflate stream" = .error e := h
    injection h2 with h3
    exact h3.symm
  | [_] =>
    have h2 : Except.error (α := List Nat) "corrupt deflate stream" = .error e := h
    injection h2 with h3
    exact h3.symm
  | cmf :: flg :: rest =>
    rw [zlibInflate] at h
    split_ifs at h <;> (try cases h) <;> rfl

/-! ## Memory module (`src/lib.rs`) -/

/-- The sole persisted entity: compressed bytes plus a free-form metadata
annotation. -/
structure MemoryModule where
  compressed_data : List Nat
  metadata : String
deriving DecidableEq

/-- `MemoryModule::new`: compress the context with the given compressor and
wrap the bytes with empty metadata; the `?` operator returns a compression
failure to the caller unchanged. -/
def MemoryModule.new (context : String) (compressor : Compressor) :
    Except StreamlinerError MemoryModule :=
  match compressor context with
  | .error e => .error e
  | .ok compressed_data => .ok { compressed_data := compressed_data, metadata := "" }

/-- `MemoryModule::expand`: hand the stored bytes to the expander; the
module itself is not mutated. -/
def MemoryModule.expand (m : MemoryModule) (expander : Expander) :
    Except StreamlinerError String :=
  expander m.compressed_data

/-- `MemoryModule::set_metadata`: overwrite the metadata field. -/
def MemoryModule.set_metadata (m : MemoryModule) (metadata : String) : MemoryModule :=
  { m with metadata := metadata }

/-! ## Storage (`src/storage.rs`)

`store_module`/`retrieve_module` perform whole-file write/read through
`tokio::fs`.  The filesystem is modelled as a map from paths to byte
contents: `File::create` creates or truncates the file, so a store
replaces whatever was at that path, and `File::open` on an absent path is
the I/O failure surfaced as `StorageError::Io`. -/

inductive StorageError where
  | Io (msg : String)
  | Serialization (msg : String)
deriving DecidableEq

/-- The persistence adapter's world: what bytes each location holds. -/
def FileSystem := String → Option (List Nat)

/-- `store_module`: create/truncate the file at `path` and write `data`. -/
def store_module (fs : FileSystem) (path : String) (data : List Nat) : FileSystem :=
  fun p => if p = path then some data else fs p

/-- `retrieve_module`: open the file at `path` and read all its bytes. -/
def retrieve_module (fs : FileSystem) (path : String) : Except StorageError (List Nat) :=
  match fs path with
  | some data => .ok data
  | none => .error (.Io "No such file or directory (os error 2)")

/-! ## JSON (model of serde_json as used by `to_json`/`from_json`)

`serde_json::to_string` on `MemoryModule` emits
`\x7b"compressed_data":[b0,...,bn],"metadata":"..."\x7d` — a `Vec<u8>`
serializes as an array of numbers and a `String` as a JSON string with
serde_json's escaping rules.  `serde_json::from_str` parses JSON text
(with a recursion limit, modelled here by fuel) and the derived
`Deserialize` impl reads the two known fields from the object, ignoring
unknown fields (serde's default), rejecting duplicates and wrong types,
and erroring on a missing field. -/

/-- Parsed JSON values.  Numbers with a fraction or exponent part are kept
only as the marker `fnum`: no claim depends on float payloads, and the
derived deserializer rejects floats wherever `MemoryModule` needs an
integer or a string. -/
inductive Json where
  | null
  | bool (b : Bool)
  | num (n : Int)
  | fnum
  | str (s : String)
  | arr (items : List Json)
  | obj (fields : List (String × Json))

/-- The JSON number holding the byte value `n` (serde serializes a `u8`
as a JSON integer). -/
def jnum (n : Nat) : Json := .num n

/-- The decimal digit character for `n < 10`. -/
def digitChar (n : Nat) : Char := Char.ofNat (48 + n)

/-- Decimal digits of `n`, most significant first (serde_json's integer
formatting). -/
def natDigits (n : Nat) : List Char :=
  if n < 10 then [digitChar n] else natDigits (n / 10) ++ [digitChar (n % 10)]
termination_by n
decreasing_by omega

/-- Lower-case hex digit character for `n < 16`. -/
def hexDigitCh (n : Nat) : Char := Char.ofNat (if n < 10 then 48 + n else 87 + n)

/-- serde_json's escaping of one character inside a JSON string: quote and
backslash escaped, the five short control escapes, `\u00XX` for the other
control characters, everything else emitted as itself. -/
def escapeChar (c : Char) : List Char :=
  if c = '"' then ['\\', '"']
  else if c = '\\' then ['\\', '\\']
  else if c.toNat = 8 then ['\\', 'b']
  else if c.toNat = 9 then ['\\', 't']
  else if c.toNat = 10 then ['\\', 'n']
  else if c.toNat = 12 then ['\\', 'f']
  else if c.toNat = 13 then ['\\', 'r']
  else if c.toNat < 0x20 then ['\\', 'u', '0', '0', hexDigitCh (c.toNat / 16), hexDigitCh (c.toNat % 16)]
  else [c]

def escapeList : List Char → List Char
  | [] => []
  | c :: cs => escapeChar c ++ escapeList cs

/-- A JSON string literal: quote, escaped content, quote. -/
def printString (s : String) : List Char :=
  '"' :: (escapeList s.data ++ ['"'])

/-- `", b"` for every byte after the first of a serialized `Vec<u8>`. -/
def printBytesRest : List Nat → List Char
  | [] => []
  | b :: bs => ',' :: (natDigits b ++ printBytesRest bs)

/-- The comma-separated numbers of a serialized `Vec<u8>`. -/
def printBytes : List Nat → List Char
  | [] => []
  | b :: bs => natDigits b ++ printBytesRest bs

/-- The exact character sequence `serde_json::to_string` produces for a
`MemoryModule` (fields in declaration order, no whitespace). -/
def printModule (m : MemoryModule) : List Char :=
  '{' :: (printString "compressed_data" ++ ':' :: '[' :: (printBytes m.compressed_data ++
    ']' :: ',' :: (printString "metadata" ++ ':' :: (printString m.metadata ++ ['}']))))

/-- `MemoryModule::to_json` = `serde_json::to_string(self)`.  For this
struct (two fields, string keys) serialization cannot fail, so the result
is always `Ok`; the `SerializationError` branch of the `?` conversion is
dead code. -/
def MemoryModule.to_json (m : MemoryModule) : Except StreamlinerError String :=
  .ok (String.mk (printModule m))

/-- JSON whitespace. -/
def isWsCh (c : Char) : Bool :=
  decide (c = ' ') || decide (c = '\t') || decide (c = '\n') || decide (c = '\r')

def skipWs : List Char → List Char
  | [] => []
  | c :: cs => if isWsCh c then skipWs cs else c :: cs

def isDigitCh (c : Char) : Bool := decide (48 ≤ c.toNat ∧ c.toNat ≤ 57)

/-- Greedily consume decimal digits, accumulating their value. -/
def parseNatAcc (acc : Nat) : List Char → Nat × List Char
  | [] => (acc, [])
  | c :: cs => if isDigitCh c then parseNatAcc (acc * 10 + (c.toNat - 48)) cs else (acc, c :: cs)

def parseHexDigitCh (c : Char) : Option Nat :=
  if 48 ≤ c.toNat ∧ c.toNat ≤ 57 then some (c.toNat - 48)
  else if 97 ≤ c.toNat ∧ c.toNat ≤ 102 then some (c.toNat - 87)
  else if 65 ≤ c.toNat ∧ c.toNat ≤ 70 then some (c.toNat - 55)
  else none

/-- Prepend a character to the content of a string-parse result. -/
def consFst (c : Char) :
    Except String (List Char × List Char) → Except String (List Char × List Char)
  | .ok (content, rest) => .ok (c :: content, rest)
  | .error e => .error e

/-- One step of JSON string-literal parsing, after the opening quote:
`ok (none, rest)` is the closing quote, `ok (some c, rest)` one decoded
content character.  Follows serde_json: the named escapes, `\uXXXX` with
surrogate pairs (a lone surrogate is an error), and a ban on raw control
characters. -/
def parseStringOne : List Char → Except String (Option Char × List Char)
  | [] => .error "EOF while parsing a string"
  | c :: cs =>
    if c = '"' then .ok (none, cs)
    else if c = '\\' then
      match cs with
      | [] => .error "EOF while parsing a string"
      | e :: cs1 =>
        if e = '"' then .ok (some '"', cs1)
        else if e = '\\' then .ok (some '\\', cs1)
        else if e = '/' then .ok (some '/', cs1)
        else if e = 'b' then .ok (some (Char.ofNat 8), cs1)
        else if e = 'f' then .ok (some (Char.ofNat 12), cs1)
        else if e = 'n' then .ok (some (Char.ofNat 10), cs1)
        else if e = 'r' then .ok (some (Char.ofNat 13), cs1)
        else if e = 't' then .ok (some (Char.ofNat 9), cs1)
        else if e = 'u' then
          match cs1 with
          | h1 :: h2 :: h3 :: h4 :: cs2 =>
            match parseHexDigitCh h1, parseHexDigitCh h2, parseHexDigitCh h3, parseHexDigitCh h4 with
            | some d1, some d2, some d3, some d4 =>
              if d1 * 4096 + d2 * 256 + d3 * 16 + d4 < 0xD800 ∨
                  0xDFFF < d1 * 4096 + d2 * 256 + d3 * 16 + d4 then
                .ok (some (Char.ofNat (d1 * 4096 + d2 * 256 + d3 * 16 + d4)), cs2)
              else if d1 * 4096 + d2 * 256 + d3 * 16 + d4 < 0xDC00 then
                match cs2 with
                | e2 :: u2 :: k1 :: k2 :: k3 :: k4 :: cs3 =>
                  if e2 = '\\' ∧ u2 = 'u' then
                    match parseHexDigitCh k1, parseHexDigitCh k2, parseHexDigitCh k3,
                        parseHexDigitCh k4 with
                    | some q1, some q2, some q3, some q4 =>
                      if 0xDC00 ≤ q1 * 4096 + q2 * 256 + q3 * 16 + q4 ∧
                          q1 * 4096 + q2 * 256 + q3 * 16 + q4 ≤ 0xDFFF then
                        .ok (some (Char.ofNat (0x10000 +
                          (d1 * 4096 + d2 * 256 + d3 * 16 + d4 - 0xD800) * 1024 +
                          (q1 * 4096 + q2 * 256 + q3 * 16 + q4 - 0xDC00))), cs3)
                      else .error "lone leading surrogate in hex escape"
                    | _, _, _, _ => .error "invalid escape"
                  else .error "unexpected end of hex escape"
                | _ => .error "unexpected end of hex escape"
              else .error "lone trailing surrogate"
            | _, _, _, _ => .error "invalid escape"
          | _ => .error "unexpected end of hex escape"
        else .error "invalid escape"
    else if c.toNat < 0x20 then .error "control character while parsing a string"
    else .ok (some c, cs)

/-- Fuel-driven string-literal parse loop; each step consumes at least one
character, so the caller's fuel (input length + 1) always suffices. -/
def parseStringAux : Nat → List Char → Except String (List Char × List Char)
  | 0, _ => .error "recursion limit exceeded"
  | f + 1, cs =>
    match parseStringOne cs with
    | .ok (none, rest) => .ok ([], rest)
    | .ok (some c, rest) => consFst c (parseStringAux f rest)
    | .error e => .error e

/-- Parse an unsigned JSON integer part: serde_json rejects a leading zero
followed by more digits. -/
def parseUInt : List Char → Except String (Nat × List Char)
  | [] => .error "EOF while parsing a value"
  | c :: cs1 =>
    if c = '0' then
      match cs1 with
      | [] => .ok (0, [])
      | d :: _ => if isDigitCh d then .error "invalid number" else .ok (0, cs1)
    else if isDigitCh c then .ok (parseNatAcc (c.toNat - 48) cs1)
    else .error "invalid number"

/-- After `e`/`E`: optional sign, then one or more digits. -/
def parseExpRest : List Char → Except String (List Char)
  | [] => .error "invalid number"
  | c :: cs1 =>
    if c = '+' ∨ c = '-' then
      match cs1 with
      | [] => .error "invalid number"
      | d :: _ => if isDigitCh d then .ok (parseNatAcc 0 cs1).2 else .error "invalid number"
    else if isDigitCh c then .ok (parseNatAcc 0 (c :: cs1)).2
    else .error "invalid number"

/-- Optional exponent part. -/
def parseExpOpt (cs : List Char) : Except String (List Char) :=
  match cs with
  | [] => .ok []
  | c :: cs1 =>
    if c = 'e' ∨ c = 'E' then parseExpRest cs1
    else .ok (c :: cs1)

/-- After the integer part: an optional fraction and exponent make the
number a float (`Json.fnum`); otherwise it is the integer itself. -/
def parseNumSuffix (intVal : Int) : List Char → Except String (Json × List Char)
  | [] => .ok (.num intVal, [])
  | c :: cs1 =>
    if c = '.' then
      match cs1 with
      | [] => .error "invalid number"
      | d :: _ =>
        if isDigitCh d then
          match parseExpOpt (parseNatAcc 0 cs1).2 with
          | .ok rest => .ok (.fnum, rest)
          | .error e => .error e
        else .error "invalid number"
    else if c = 'e' ∨ c = 'E' then
      match parseExpRest cs1 with
      | .ok rest => .ok (.fnum, rest)
      | .error e => .error e
    else .ok (.num intVal, c :: cs1)

/-- A JSON number literal: optional minus, integer part, optional
fraction/exponent. -/
def parseNumberLit : List Char → Except String (Json × List Char)
  | [] => .error "EOF while parsing a value"
  | c :: cs1 =>
    if c = '-' then
      match parseUInt cs1 with
      | .ok (v, rest) => parseNumSuffix (-(v : Int)) rest
      | .error e => .error e
    else
      match parseUInt (c :: cs1) with
      | .ok (v, rest) => parseNumSuffix (v : Int) rest
      | .error e => .error e

/-- Match an exact character sequence. -/
def expectChars : List Char → List Char → Option (List Char)
  | [], cs => some cs
  | _ :: _, [] => none
  | e :: es, c :: cs => if c = e then expectChars es cs else none

mutual

/-- The JSON value parser (model of serde_json's `from_str` grammar): skip
whitespace, dispatch on the first character.  The fuel argument models
serde_json's recursion limit; the top-level call passes input length + 1,
which is exhausted only on inputs whose parse serde_json also refuses. -/
def parseValue : Nat → List Char → Except String (Json × List Char)
  | 0, _ => .error "recursion limit exceeded"
  | f + 1, cs =>
    match skipWs cs with
    | [] => .error "EOF while parsing a value"
    | c :: cs1 =>
      if c = '{' then
        match skipWs cs1 with
        | [] => .error "EOF while parsing an object"
        | c2 :: rest =>
          if c2 = '}' then .ok (.obj [], rest)
          else
            match parseMembers f cs1 with
            | .ok (fields, rest2) => .ok (.obj fields, rest2)
            | .error e => .error e
      else if c = '[' then
        match skipWs cs1 with
        | [] => .error "EOF while parsing a list"
        | c2 :: rest =>
          if c2 = ']' then .ok (.arr [], rest)
          else
            match parseItems f cs1 with
            | .ok (items, rest2) => .ok (.arr items, rest2)
            | .error e => .error e
      else if c = '"' then
        match parseStringAux (cs1.length + 1) cs1 with
        | .ok (content, rest) => .ok (.str (String.mk content), rest)
        | .error e => .error e
      else if c = 't' then
        match expectChars ['r', 'u', 'e'] cs1 with
        | some rest => .ok (.bool true, rest)
        | none => .error "expected ident"
      else if c = 'f' then
        match expectChars ['a', 'l', 's', 'e'] cs1 with
        | some rest => .ok (.bool false, rest)
        | none => .error "expected ident"
      else if c = 'n' then
        match expectChars ['u', 'l', 'l'] cs1 with
        | some rest => .ok (.null, rest)
        | none => .error "expected ident"
      else if c = '-' ∨ isDigitCh c = true then parseNumberLit (c :: cs1)
      else .error "expected value"

/-- Nonempty array tail: value, then `,` and more values or `]`. -/
def parseItems : Nat → List Char → Except String (List Json × List Char)
  | 0, _ => .error "recursion limit exceeded"
  | f + 1, cs =>
    match parseValue f cs with
    | .ok (v, rest) =>
      match skipWs rest with
      | [] => .error "EOF while parsing a list"
      | c :: rest2 =>
        if c = ',' then
          match parseItems f rest2 with
          | .ok (vs, rest3) => .ok (v :: vs, rest3)
          | .error e => .error e
        else if c = ']' then .ok ([v], rest2)
        else .error "expected comma or closing bracket"
    | .error e => .error e

/-- Nonempty object tail: string key, `:`, value, then `,` and more
members or the closing brace. -/
def parseMembers : Nat → List Char → Except String (List (String × Json) × List Char)
  | 0, _ => .error "recursion limit exceeded"
  | f + 1, cs =>
    match skipWs cs with
    | [] => .error "EOF while parsing an object"
    | c :: cs1 =>
      if c = '"' then
        match parseStringAux (cs1.length + 1) cs1 with
        | .ok (key, rest) =>
          match skipWs rest with
          | [] => .error "EOF while parsing an object"
          | c2 :: rest2 =>
            if c2 = ':' then
              match parseValue f rest2 with
              | .ok (v, rest3) =>
                match skipWs rest3 with
                | [] => .error "EOF while parsing an object"
                | c3 :: rest4 =>
                  if c3 = ',' then
                    match parseMembers f rest4 with
                    | .ok (fields, rest5) => .ok ((String.mk key, v) :: fields, rest5)
                    | .error e => .error e
                  else if c3 = '}' then .ok ([(String.mk key, v)], rest4)
                  else .error "expected comma or closing brace"
              | .error e => .error e
            else .error "expected colon"
        | .error e => .error e
      else .error "key must be a string"

end

/-- `serde_json::from_str` at the text level: parse one value and require
only whitespace after it. -/
def jsonParse (s : String) : Except String Json :=
  match parseValue (s.data.length + 1) s.data with
  | .ok (j, rest) => if (skipWs rest).isEmpty then .ok j else .error "trailing characters"
  | .error e => .error e

/-- Deserialize a `u8` array element: must be an integer in `0..=255`. -/
def u8FromJson : Json → Except String Nat
  | .num n => if 0 ≤ n ∧ n < 256 then .ok n.toNat else .error "invalid value: integer out of range"
  | _ => .error "invalid type: expected u8"

def u8ListFromJson : List Json → Except String (List Nat)
  | [] => .ok []
  | j :: js =>
    match u8FromJson j with
    | .ok b =>
      match u8ListFromJson js with
      | .ok bs => .ok (b :: bs)
      | .error e => .error e
    | .error e => .error e

/-- Deserialize the `compressed_data` field: a sequence of `u8`. -/
def bytesFromJson : Json → Except String (List Nat)
  | .arr items => u8ListFromJson items
  | _ => .error "invalid type: expected a sequence"

/-- Deserialize the `metadata` field: a string. -/
def strFromJson : Json → Except String String
  | .str s => .ok s
  | _ => .error "invalid type: expected a string"

/-- End of the derived `Deserialize` field loop: a still-empty slot is a
missing field, otherwise the module is built from the two slots. -/
def extractDone : Option (List Nat) → Option String → Except String MemoryModule
  | none, _ => .error "missing field compressed_data"
  | some _, none => .error "missing field metadata"
  | some bs, some s => .ok { compressed_data := bs, metadata := s }

/-- One `compressed_data` member: a filled slot is a duplicate field, a
bad payload is that payload's error, otherwise continue with the slot
filled. -/
def extractCdStep (r : Except String (List Nat)) (cd : Option (List Nat))
    (kont : List Nat → Except String MemoryModule) : Except String MemoryModule :=
  match cd with
  | some _ => .error "duplicate field compressed_data"
  | none =>
    match r with
    | .ok bs => kont bs
    | .error e => .error e

/-- One `metadata` member, symmetrical to `extractCdStep`. -/
def extractMdStep (r : Except String String) (md : Option String)
    (kont : String → Except String MemoryModule) : Except String MemoryModule :=
  match md with
  | some _ => .error "duplicate field metadata"
  | none =>
    match r with
    | .ok s => kont s
    | .error e => .error e

/-- The derived `Deserialize` impl's field loop: walk the object's members
in order, fill the two known fields (duplicates are an error, as in
serde), skip unknown fields (serde's default behaviour without
`deny_unknown_fields`), and fail on a missing field at the end. -/
def extractFields :
    List (String × Json) → Option (List Nat) → Option String → Except String MemoryModule
  | [], cd, md => extractDone cd md
  | (k, v) :: fields, cd, md =>
    if k = "compressed_data" then
      extractCdStep (bytesFromJson v) cd (fun bs => extractFields fields (some bs) md)
    else if k = "metadata" then
      extractMdStep (strFromJson v) md (fun s => extractFields fields cd (some s))
    else extractFields fields cd md

/-- `MemoryModule::from_json` = `serde_json::from_str(json)`: parse the
text, require a JSON object, and run the derived field loop; any
serde_json failure surfaces as `SerializationError`. -/
def MemoryModule.from_json (text : String) : Except StreamlinerError MemoryModule :=
  match jsonParse text with
  | .error e => .error (.SerializationError e)
  | .ok (.obj fields) =>
    match extractFields fields none none with
    | .ok m => .ok m
    | .error e => .error (.SerializationError e)
  | .ok _ => .error (.SerializationError "invalid type: expected struct MemoryModule")

/-- The first character of `rest` (if any) cannot continue a JSON number:
not a digit, not `.`, not an exponent marker. -/
def numBoundaryB : List Char → Bool
  | [] => true
  | c :: _ => !(isDigitCh c) && !(decide (c = '.')) && !(decide (c = 'e')) && !(decide (c = 'E'))

/-! ## Round-trip lemmas for the JSON model -/

theorem toNat_ofNat_valid (n : Nat) (h : n.isValidChar) : (Char.ofNat n).toNat = n := by
  rw [Char.ofNat, dif_pos h]
  rfl

theorem char_toNat_inj (a b : Char) (h : a.toNat = b.toNat) : a = b := by
  rw [← Char.ofNat_toNat a, ← Char.ofNat_toNat b, h]

theorem digitChar_toNat (n : Nat) (h : n < 10) : (digitChar n).toNat = 48 + n :=
  toNat_ofNat_valid _ (Or.inl (by omega))

theorem natDigits_digits (n : Nat) : ∀ c ∈ natDigits n, 48 ≤ c.toNat ∧ c.toNat ≤ 57 := by
  induction n using Nat.strong_induction_on with
  | _ n ih =>
    rw [natDigits]
    by_cases h : n < 10
    · rw [if_pos h]
      intro c hc
      rw [List.mem_singleton] at hc
      rw [hc, digitChar_toNat n h]
      omega
    · rw [if_neg h]
      intro c hc
      rw [List.mem_append, List.mem_singleton] at hc
      rcases hc with hc | hc
      · exact ih (n / 10) (by omega) c hc
      · rw [hc, digitChar_toNat _ (by omega)]
        omega

theorem natDigits_head_ne_zero (n : Nat) (h : 1 ≤ n) :
    ∃ c ds, natDigits n = c :: ds ∧ ¬ c = '0' := by
  induction n using Nat.strong_induction_on with
  | _ n ih =>
    rw [natDigits]
    by_cases h10 : n < 10
    · rw [if_pos h10]
      refine ⟨digitChar n, [], rfl, fun hc => ?_⟩
      have h1 := congrArg Char.toNat hc
      rw [digitChar_toNat n h10] at h1
      have h0 : ('0').toNat = 48 := by decide
      omega
    · rw [if_neg h10]
      obtain ⟨c, ds, hds, hc⟩ := ih (n / 10) (by omega) (by omega)
      exact ⟨c, ds ++ [digitChar (n % 10)], by rw [hds]; rfl, hc⟩

theorem foldl_natDigits (n : Nat) :
    ∀ acc, (natDigits n).foldl (fun a c => a * 10 + (c.toNat - 48)) acc =
      acc * 10 ^ (natDigits n).length + n := by
  induction n using Nat.strong_induction_on with
  | _ n ih =>
    intro acc
    rw [natDigits]
    by_cases h : n < 10
    · rw [if_pos h]
      rw [List.foldl_cons, List.foldl_nil, List.length_singleton]
      rw [digitChar_toNat n h]
      omega
    · rw [if_neg h]
      rw [List.foldl_append, List.foldl_cons, List.foldl_nil]
      rw [ih (n / 10) (by omega) acc]
      rw [List.length_append, List.length_singleton]
      rw [digitChar_toNat _ (by omega)]
      have hm : (48 + n % 10 - 48) = n % 10 := by omega
      rw [hm, pow_succ]
      have hdm : 10 * (n / 10) + n % 10 = n := Nat.div_add_mod n 10
      calc (acc * 10 ^ (natDigits (n / 10)).length + n / 10) * 10 + n % 10
          = acc * (10 ^ (natDigits (n / 10)).length * 10) + (10 * (n / 10) + n % 10) := by ring
        _ = acc * (10 ^ (natDigits (n / 10)).length * 10) + n := by rw [hdm]

theorem parseNatAcc_digits (ds : List Char) :
    ∀ acc rest, (∀ c ∈ ds, 48 ≤ c.toNat ∧ c.toNat ≤ 57) → numBoundaryB rest = true →
      parseNatAcc acc (ds ++ rest) =
        (ds.foldl (fun a c => a * 10 + (c.toNat - 48)) acc, rest) := by
  induction ds with
  | nil =>
    intro acc rest _ hrest
    rw [List.nil_append, List.foldl_nil]
    cases rest with
    | nil => rfl
    | cons c cs =>
      rw [numBoundaryB] at hrest
      rw [parseNatAcc]
      rw [if_neg (by simp only [Bool.and_eq_true, Bool.not_eq_true'] at hrest; simp [hrest.1.1.1])]
  | cons d ds ih =>
    intro acc rest hds hrest
    rw [List.cons_append, parseNatAcc]
    rw [if_pos (by
      rw [isDigitCh]
      exact decide_eq_true (hds d (List.mem_cons_self d ds)))]
    rw [List.foldl_cons]
    exact ih _ rest (fun c hc => hds c (List.mem_cons_of_mem d hc)) hrest

theorem natDigits_ne_nil (n : Nat) : natDigits n ≠ [] := by
  rw [natDigits]
  split_ifs <;> simp

theorem parseUInt_natDigits (b : Nat) (rest : List Char) (hrest : numBoundaryB rest = true) :
    parseUInt (natDigits b ++ rest) = .ok (b, rest) := by
  by_cases hb : b = 0
  · subst hb
    rw [show natDigits 0 = ['0'] from by rw [natDigits]; decide]
    rw [List.cons_append, List.nil_append, parseUInt.eq_def]
    simp only []
    rw [if_pos trivial]
    cases rest with
    | nil => rfl
    | cons c cs =>
      rw [numBoundaryB] at hrest
      simp only [Bool.and_eq_true, Bool.not_eq_true'] at hrest
      simp only []
      rw [if_neg (by rw [hrest.1.1.1]; decide)]
  · obtain ⟨c, ds, hds, hc0⟩ := natDigits_head_ne_zero b (by omega)
    have hdig : ∀ x ∈ natDigits b, 48 ≤ x.toNat ∧ x.toNat ≤ 57 := natDigits_digits b
    rw [hds] at hdig ⊢
    have hcd : 48 ≤ c.toNat ∧ c.toNat ≤ 57 := hdig c (List.mem_cons_self c ds)
    rw [List.cons_append, parseUInt.eq_def]
    simp only []
    rw [if_neg hc0]
    rw [if_pos (by rw [isDigitCh]; exact decide_eq_true hcd)]
    rw [parseNatAcc_digits ds (c.toNat - 48) rest
      (fun x hx => hdig x (List.mem_cons_of_mem c hx)) hrest]
    have := foldl_natDigits b 0
    rw [hds, List.foldl_cons] at this
    rw [show 0 * 10 + (c.toNat - 48) = c.toNat - 48 from by omega] at this
    rw [this]
    simp

theorem parseNumSuffix_boundary (v : Int) (rest : List Char) (hrest : numBoundaryB rest = true) :
    parseNumSuffix v rest = .ok (.num v, rest) := by
  cases rest with
  | nil => rfl
  | cons c cs =>
    rw [numBoundaryB] at hrest
    simp only [Bool.and_eq_true, Bool.not_eq_true'] at hrest
    rw [parseNumSuffix.eq_def]
    simp only []
    rw [if_neg (of_decide_eq_false hrest.1.1.2)]
    rw [if_neg (by
      rintro (h | h)
      · exact absurd (decide_eq_true h) (by rw [hrest.1.2]; decide)
      · exact absurd (decide_eq_true h) (by rw [hrest.2]; decide))]

theorem parseNumberLit_natDigits (b : Nat) (rest : List Char)
    (hrest : numBoundaryB rest = true) :
    parseNumberLit (natDigits b ++ rest) = .ok (.num b, rest) := by
  obtain ⟨c, ds, hds⟩ : ∃ c ds, natDigits b = c :: ds := by
    cases h : natDigits b with
    | nil => exact absurd h (natDigits_ne_nil b)
    | cons x xs => exact ⟨x, xs, rfl⟩
  have hcd : 48 ≤ c.toNat ∧ c.toNat ≤ 57 :=
    natDigits_digits b c (by rw [hds]; exact List.mem_cons_self c ds)
  rw [hds, List.cons_append, parseNumberLit]
  rw [if_neg (fun hc => by
    have := congrArg Char.toNat hc
    revert this
    have h45 : ('-').toNat = 45 := by decide
    omega)]
  rw [← List.cons_append, ← hds, parseUInt_natDigits b rest hrest]
  exact parseNumSuffix_boundary b rest hrest

theorem parseHexDigitCh_hexDigitCh (n : Nat) (h : n < 16) :
    parseHexDigitCh (hexDigitCh n) = some n := by
  rw [hexDigitCh, parseHexDigitCh]
  by_cases h10 : n < 10
  · rw [if_pos h10]
    rw [toNat_ofNat_valid _ (Or.inl (by omega))]
    rw [if_pos ⟨by omega, by omega⟩]
    exact congrArg some (by omega)
  · rw [if_neg h10]
    rw [toNat_ofNat_valid _ (Or.inl (by omega))]
    rw [if_neg (by omega), if_pos ⟨by omega, by omega⟩]
    exact congrArg some (by omega)

theorem char_ne_of_toNat_ne (a b : Char) (h : ¬ a.toNat = b.toNat) : ¬ a = b :=
  fun hab => h (congrArg Char.toNat hab)

/-- One string-parse step inverts serde_json's character escaping. -/
theorem parseStringOne_escapeChar (c : Char) (tail : List Char) :
    parseStringOne (escapeChar c ++ tail) = .ok (some c, tail) := by
  by_cases h1 : c = '"'
  · rw [escapeChar, if_pos h1, List.cons_append, List.cons_append, List.nil_append, h1]
    rfl
  · by_cases h2 : c = '\\'
    · rw [escapeChar, if_neg h1, if_pos h2, List.cons_append, List.cons_append,
        List.nil_append, h2]
      rfl
    · by_cases h3 : c.toNat = 8
      · rw [escapeChar, if_neg h1, if_neg h2, if_pos h3, List.cons_append, List.cons_append,
          List.nil_append]
        rw [show parseStringOne ('\\' :: 'b' :: tail) = .ok (some (Char.ofNat 8), tail) from rfl]
        rw [← h3, Char.ofNat_toNat]
      · by_cases h4 : c.toNat = 9
        · rw [escapeChar, if_neg h1, if_neg h2, if_neg h3, if_pos h4, List.cons_append,
            List.cons_append, List.nil_append]
          rw [show parseStringOne ('\\' :: 't' :: tail) = .ok (some (Char.ofNat 9), tail) from rfl]
          rw [← h4, Char.ofNat_toNat]
        · by_cases h5 : c.toNat = 10
          · rw [escapeChar, if_neg h1, if_neg h2, if_neg h3, if_neg h4, if_pos h5,
              List.cons_append, List.cons_append, List.nil_append]
            rw [show parseStringOne ('\\' :: 'n' :: tail) =
              .ok (some (Char.ofNat 10), tail) from rfl]
            rw [← h5, Char.ofNat_toNat]
          · by_cases h6 : c.toNat = 12
            · rw [escapeChar, if_neg h1, if_neg h2, if_neg h3, if_neg h4, if_neg h5, if_pos h6,
                List.cons_append, List.cons_append, List.nil_append]
              rw [show parseStringOne ('\\' :: 'f' :: tail) =
                .ok (some (Char.ofNat 12), tail) from rfl]
              rw [← h6, Char.ofNat_toNat]
            · by_cases h7 : c.toNat = 13
              · rw [escapeChar, if_neg h1, if_neg h2, if_neg h3, if_neg h4, if_neg h5,
                  if_neg h6, if_pos h7, List.cons_append, List.cons_append, List.nil_append]
                rw [show parseStringOne ('\\' :: 'r' :: tail) =
                  .ok (some (Char.ofNat 13), tail) from rfl]
                rw [← h7, Char.ofNat_toNat]
              · by_cases h8 : c.toNat < 0x20
                · rw [escapeChar, if_neg h1, if_neg h2, if_neg h3, if_neg h4, if_neg h5,
                    if_neg h6, if_neg h7, if_pos h8]
                  rw [List.cons_append, List.cons_append, List.cons_append, List.cons_append,
                    List.cons_append, List.cons_append, List.nil_append]
                  rw [parseStringOne.eq_def]
                  simp only []
                  rw [if_neg (by decide), if_pos trivial]
                  rw [if_neg (by decide), if_neg (by decide), if_neg (by decide),
                    if_neg (by decide), if_neg (by decide), if_neg (by decide),
                    if_neg (by decide), if_neg (by decide), if_pos trivial]
                  rw [show parseHexDigitCh '0' = some 0 from by decide]
                  rw [parseHexDigitCh_hexDigitCh (c.toNat / 16) (by omega)]
                  rw [parseHexDigitCh_hexDigitCh (c.toNat % 16) (by omega)]
                  simp only []
                  rw [show 0 * 4096 + 0 * 256 + c.toNat / 16 * 16 + c.toNat % 16 = c.toNat from
                    by omega]
                  rw [if_pos (Or.inl (by omega)), Char.ofNat_toNat]
                · rw [escapeChar, if_neg h1, if_neg h2, if_neg h3, if_neg h4, if_neg h5,
                    if_neg h6, if_neg h7, if_neg h8, List.cons_append, List.nil_append]
                  rw [parseStringOne.eq_def]
                  simp only []
                  rw [if_neg h1, if_neg h2, if_neg h8]

/-- The string-parse loop inverts serde_json's string escaping. -/
theorem parseStringAux_escapeList (l : List Char) :
    ∀ f rest, l.length + 1 ≤ f →
      parseStringAux f (escapeList l ++ '"' :: rest) = .ok (l, rest) := by
  induction l with
  | nil =>
    intro f rest hf
    obtain ⟨f1, rfl⟩ : ∃ f1, f = f1 + 1 := ⟨f - 1, by omega⟩
    rw [escapeList, List.nil_append, parseStringAux]
    rw [show parseStringOne ('"' :: rest) = .ok (none, rest) from rfl]
  | cons c cs ih =>
    intro f rest hf
    obtain ⟨f1, rfl⟩ : ∃ f1, f = f1 + 1 := ⟨f - 1, by omega⟩
    rw [escapeList, List.append_assoc, parseStringAux]
    rw [parseStringOne_escapeChar c (escapeList cs ++ '"' :: rest)]
    simp only []
    rw [ih f1 rest (by simp at hf; omega)]
    rfl

theorem escapeChar_length_pos (c : Char) : 1 ≤ (escapeChar c).length := by
  rw [escapeChar]
  split_ifs <;> simp

theorem escapeList_length_ge (l : List Char) : l.length ≤ (escapeList l).length := by
  induction l with
  | nil => simp [escapeList]
  | cons c cs ih =>
    rw [escapeList, List.length_append, List.length_cons]
    have := escapeChar_length_pos c
    omega

theorem skipWs_cons (c : Char) (cs : List Char) (h : isWsCh c = false) :
    skipWs (c :: cs) = c :: cs := by
  simp [skipWs, h]

theorem isWsCh_false_of_ge (c : Char) (h : 33 ≤ c.toNat) : isWsCh c = false := by
  rw [isWsCh]
  simp only [Bool.or_eq_false_iff, decide_eq_false_iff_not]
  refine ⟨⟨⟨?_, ?_⟩, ?_⟩, ?_⟩ <;> rintro rfl <;> revert h <;> decide

/-- A parsed string literal glued onto following text. -/
theorem printString_append (s : String) (x : List Char) :
    printString s ++ x = '"' :: (escapeList s.data ++ ('"' :: x)) := by
  rw [printString]
  simp [List.append_assoc]

/-- `parseValue` on a printed string literal. -/
theorem parseValue_printString (s : String) (rest : List Char) (f : Nat) :
    parseValue (f + 1) (printString s ++ rest) = .ok (.str s, rest) := by
  rw [printString_append, parseValue]
  rw [skipWs_cons _ _ (by decide)]
  simp only []
  rw [if_neg (by decide), if_neg (by decide), if_pos trivial]
  rw [parseStringAux_escapeList s.data _ rest (by
    simp only [List.length_append, List.length_cons]
    have := escapeList_length_ge s.data
    omega)]

/-- `parseValue` on a printed byte-value number. -/
theorem parseValue_natDigits (b : Nat) (rest : List Char) (f : Nat)
    (hrest : numBoundaryB rest = true) :
    parseValue (f + 1) (natDigits b ++ rest) = .ok (.num b, rest) := by
  obtain ⟨c, ds, hds⟩ : ∃ c ds, natDigits b = c :: ds := by
    cases h : natDigits b with
    | nil => exact absurd h (natDigits_ne_nil b)
    | cons x xs => exact ⟨x, xs, rfl⟩
  have hcd : 48 ≤ c.toNat ∧ c.toNat ≤ 57 :=
    natDigits_digits b c (by rw [hds]; exact List.mem_cons_self c ds)
  rw [hds, List.cons_append, parseValue]
  rw [skipWs_cons _ _ (isWsCh_false_of_ge c (by omega))]
  simp only []
  rw [if_neg (by rintro rfl; revert hcd; decide)]
  rw [if_neg (by rintro rfl; revert hcd; decide)]
  rw [if_neg (by rintro rfl; revert hcd; decide)]
  rw [if_neg (by rintro rfl; revert hcd; decide)]
  rw [if_neg (by rintro rfl; revert hcd; decide)]
  rw [if_neg (by rintro rfl; revert hcd; decide)]
  rw [if_pos (Or.inr (by rw [isDigitCh]; exact decide_eq_true hcd))]
  rw [← List.cons_append, ← hds]
  exact parseNumberLit_natDigits b rest hrest

/-- `parseItems` over the printed tail of a nonempty byte array. -/
theorem parseItems_printTail (bs : List Nat) :
    ∀ b rest f, bs.length + 2 ≤ f →
      parseItems f (natDigits b ++ (printBytesRest bs ++ (']' :: rest))) =
        .ok ((b :: bs).map jnum, rest) := by
  induction bs with
  | nil =>
    intro b rest f hf
    obtain ⟨f1, rfl⟩ : ∃ f1, f = f1 + 1 := ⟨f - 1, by omega⟩
    obtain ⟨f2, rfl⟩ : ∃ f2, f1 = f2 + 1 := ⟨f1 - 1, by omega⟩
    rw [printBytesRest, List.nil_append, parseItems]
    rw [parseValue_natDigits b _ f2 (by rw [numBoundaryB]; decide)]
    simp only []
    rw [skipWs_cons _ _ (by decide)]
    simp only []
    rw [if_neg (by decide), if_pos trivial]
    rfl
  | cons b2 bs2 ih =>
    intro b rest f hf
    obtain ⟨f1, rfl⟩ : ∃ f1, f = f1 + 1 := ⟨f - 1, by omega⟩
    obtain ⟨f2, rfl⟩ : ∃ f2, f1 = f2 + 1 := ⟨f1 - 1, by simp at hf; omega⟩
    rw [printBytesRest, parseItems]
    rw [show (',' :: (natDigits b2 ++ printBytesRest bs2)) ++ (']' :: rest) =
      ',' :: (natDigits b2 ++ (printBytesRest bs2 ++ (']' :: rest))) from by
        simp [List.append_assoc]]
    rw [parseValue_natDigits b _ f2 (by rw [numBoundaryB]; decide)]
    simp only []
    rw [skipWs_cons _ _ (by decide)]
    simp only []
    rw [if_pos trivial]
    rw [ih b2 rest (f2 + 1) (by simp at hf; omega)]
    simp only [List.map, jnum]

/-- `parseValue` on a printed byte array. -/
theorem parseValue_printBytes (bs : List Nat) (rest : List Char) (f : Nat)
    (hf : bs.length + 1 ≤ f) :
    parseValue (f + 1) ('[' :: (printBytes bs ++ (']' :: rest))) =
      .ok (.arr (bs.map jnum), rest) := by
  rw [parseValue]
  rw [skipWs_cons _ _ (by decide)]
  simp only []
  rw [if_neg (by decide), if_pos trivial]
  cases bs with
  | nil =>
    rw [printBytes, List.nil_append]
    rw [skipWs_cons _ _ (by decide)]
    simp only []
    rw [if_pos trivial]
    rfl
  | cons b bs2 =>
    rw [printBytes, List.append_assoc]
    obtain ⟨c, ds, hds⟩ : ∃ c ds, natDigits b = c :: ds := by
      cases h : natDigits b with
      | nil => exact absurd h (natDigits_ne_nil b)
      | cons x xs => exact ⟨x, xs, rfl⟩
    have hcd : 48 ≤ c.toNat ∧ c.toNat ≤ 57 :=
      natDigits_digits b c (by rw [hds]; exact List.mem_cons_self c ds)
    rw [hds, List.cons_append]
    rw [skipWs_cons _ _ (isWsCh_false_of_ge c (by omega))]
    simp only []
    rw [if_neg (by rintro rfl; revert hcd; decide)]
    rw [← List.cons_append, ← hds]
    rw [parseItems_printTail bs2 b rest f (by simp at hf; omega)]

/-- `parseMembers` over two printed members holding a byte array and a
string (the shape of a serialized module). -/
theorem parseMembers_module (k1 k2 : String) (bs : List Nat) (md : String) (rest : List Char)
    (f : Nat) (hf : bs.length + 4 ≤ f) :
    parseMembers f (printString k1 ++
        (':' :: '[' :: (printBytes bs ++ (']' :: ',' :: (printString k2 ++
          (':' :: (printString md ++ ('}' :: rest)))))))) =
      .ok ([(k1, .arr (bs.map jnum)), (k2, .str md)],
        rest) := by
  obtain ⟨f1, rfl⟩ : ∃ f1, f = f1 + 1 := ⟨f - 1, by omega⟩
  rw [parseMembers, printString_append]
  rw [skipWs_cons _ _ (by decide)]
  simp only []
  rw [if_pos trivial]
  rw [parseStringAux_escapeList k1.data _ _ (by
    simp only [List.length_append, List.length_cons]
    have := escapeList_length_ge k1.data
    omega)]
  simp only []
  rw [skipWs_cons _ _ (by decide)]
  simp only []
  rw [if_pos trivial]
  obtain ⟨f2, rfl⟩ : ∃ f2, f1 = f2 + 1 := ⟨f1 - 1, by omega⟩
  rw [parseValue_printBytes bs _ f2 (by omega)]
  simp only []
  rw [skipWs_cons _ _ (by decide)]
  simp only []
  rw [if_pos trivial]
  rw [parseMembers, printString_append]
  rw [skipWs_cons _ _ (by decide)]
  simp only []
  rw [if_pos trivial]
  rw [parseStringAux_escapeList k2.data _ _ (by
    simp only [List.length_append, List.length_cons]
    have := escapeList_length_ge k2.data
    omega)]
  simp only []
  rw [skipWs_cons _ _ (by decide)]
  simp only []
  rw [if_pos trivial]
  obtain ⟨f3, rfl⟩ : ∃ f3, f2 = f3 + 1 := ⟨f2 - 1, by omega⟩
  rw [parseValue_printString md ('}' :: rest) f3]
  simp only []
  rw [skipWs_cons _ _ (by decide)]
  simp only []
  rw [if_neg (by decide), if_pos trivial]

/-- `parseValue` on a whole printed module. -/
theorem parseValue_printModule (m : MemoryModule) (rest : List Char) (f : Nat)
    (hf : m.compressed_data.length + 5 ≤ f) :
    parseValue (f + 1) (printModule m ++ rest) =
      .ok (.obj [("compressed_data", .arr (m.compressed_data.map jnum)),
        ("metadata", .str m.metadata)], rest) := by
  have hsh : printModule m ++ rest = '{' :: (printString "compressed_data" ++
      (':' :: '[' :: (printBytes m.compressed_data ++ (']' :: ',' :: (printString "metadata" ++
        (':' :: (printString m.metadata ++ ('}' :: rest)))))))) := by
    rw [printModule]
    simp [List.append_assoc]
  rw [hsh, parseValue]
  rw [skipWs_cons _ _ (by decide)]
  simp only []
  rw [if_pos trivial]
  rw [printString_append]
  rw [skipWs_cons _ _ (by decide)]
  simp only []
  rw [if_neg (by decide)]
  rw [← printString_append]
  rw [parseMembers_module "compressed_data" "metadata" m.compressed_data m.metadata rest f
    (by omega)]

theorem natDigits_length_pos (n : Nat) : 1 ≤ (natDigits n).length := by
  rw [natDigits]
  split_ifs <;> simp

theorem printBytesRest_length_ge (bs : List Nat) : bs.length ≤ (printBytesRest bs).length := by
  induction bs with
  | nil => simp [printBytesRest]
  | cons b bs2 ih =>
    rw [printBytesRest, List.length_cons, List.length_cons, List.length_append]
    have := natDigits_length_pos b
    omega

theorem printBytes_length_ge (bs : List Nat) : bs.length ≤ (printBytes bs).length := by
  cases bs with
  | nil => simp [printBytes]
  | cons b bs2 =>
    rw [printBytes, List.length_cons, List.length_append]
    have h1 := natDigits_length_pos b
    have h2 := printBytesRest_length_ge bs2
    omega

theorem printModule_length_ge (m : MemoryModule) :
    m.compressed_data.length + 6 ≤ (printModule m).length := by
  rw [printModule]
  simp only [List.length_cons, List.length_append]
  have h1 := printBytes_length_ge m.compressed_data
  have h2 : (printString "compressed_data").length = 17 := by decide
  have h3 : (printString "metadata").length = 10 := by decide
  have h4 : 2 ≤ (printString m.metadata).length := by
    rw [printString, List.length_cons, List.length_append]
    simp
  omega

/-- `jsonParse` on the exact text `to_json` produces. -/
theorem jsonParse_printModule (m : MemoryModule) :
    jsonParse (String.mk (printModule m)) =
      .ok (.obj [("compressed_data", .arr (m.compressed_data.map jnum)),
        ("metadata", .str m.metadata)]) := by
  rw [jsonParse]
  have hdata : (String.mk (printModule m)).data = printModule m := rfl
  rw [hdata]
  obtain ⟨f, hf⟩ : ∃ f, (printModule m).length = f + 1 :=
    ⟨(printModule m).length - 1, by have := printModule_length_ge m; omega⟩
  rw [hf]
  have hself : printModule m = printModule m ++ [] := by simp
  conv in parseValue (f + 1 + 1) (printModule m) => rw [hself]
  rw [parseValue_printModule m [] (f + 1) (by have := printModule_length_ge m; omega)]
  simp only []
  rfl

theorem u8FromJson_num (b : Nat) (h : b < 256) : u8FromJson (.num b) = .ok b := by
  rw [u8FromJson]
  rw [if_pos ⟨Int.natCast_nonneg b, by exact_mod_cast h⟩]
  simp

theorem u8ListFromJson_map (bs : List Nat) (h : ∀ b ∈ bs, b < 256) :
    u8ListFromJson (bs.map jnum) = .ok bs := by
  induction bs with
  | nil => rfl
  | cons b bs2 ih =>
    rw [List.map_cons, u8ListFromJson]
    simp only [jnum]
    rw [u8FromJson_num b (h b (List.mem_cons_self b bs2))]
    simp only []
    rw [ih (fun x hx => h x (List.mem_cons_of_mem b hx))]

/-- The serde field loop on the canonical two-member object. -/
theorem extractFields_canonical (bs : List Nat) (md : String) (h : ∀ b ∈ bs, b < 256) :
    extractFields [("compressed_data", .arr (bs.map jnum)),
        ("metadata", .str md)] none none =
      .ok { compressed_data := bs, metadata := md } := by
  rw [extractFields]
  rw [if_pos rfl]
  simp only [bytesFromJson]
  rw [u8ListFromJson_map bs h]
  simp only [extractCdStep]
  rw [extractFields]
  rw [if_neg (by decide), if_pos rfl]
  simp only [strFromJson, extractMdStep]
  rw [extractFields]
  rfl

/-- Deserializing the exact serialization of a module gives the module
back, whatever its byte payload holds. -/
theorem from_json_printModule (m : MemoryModule) (h : ∀ b ∈ m.compressed_data, b < 256) :
    MemoryModule.from_json (String.mk (printModule m)) = .ok m := by
  rw [MemoryModule.from_json, jsonParse_printModule]
  simp only []
  rw [extractFields_canonical m.compressed_data m.metadata h]

/-- If no member is named `compressed_data` and the accumulator is empty,
the field loop cannot succeed. -/
theorem extractFields_no_cd (fields : List (String × Json)) :
    ∀ md, "compressed_data" ∉ fields.map Prod.fst →
      ∃ msg, extractFields fields none md = .error msg := by
  induction fields with
  | nil =>
    intro md _
    exact ⟨_, rfl⟩
  | cons kv fields ih =>
    obtain ⟨k, v⟩ := kv
    intro md hmem
    simp only [List.map_cons, List.mem_cons, not_or] at hmem
    rw [extractFields]
    rw [if_neg (fun h => hmem.1 h.symm)]
    by_cases hk2 : k = "metadata"
    · rw [if_pos hk2]
      cases md with
      | some _ => exact ⟨_, rfl⟩
      | none =>
        cases hs : strFromJson v with
        | error e => exact ⟨e, rfl⟩
        | ok s =>
          simp only [extractMdStep]
          exact ih (some s) hmem.2
    · rw [if_neg hk2]
      exact ih md hmem.2

/-- If no member is named `metadata` and its accumulator is empty, the
field loop cannot succeed. -/
theorem extractFields_no_md (fields : List (String × Json)) :
    ∀ cd, "metadata" ∉ fields.map Prod.fst →
      ∃ msg, extractFields fields cd none = .error msg := by
  induction fields with
  | nil =>
    intro cd _
    cases cd with
    | none => exact ⟨_, rfl⟩
    | some _ => exact ⟨_, rfl⟩
  | cons kv fields ih =>
    obtain ⟨k, v⟩ := kv
    intro cd hmem
    simp only [List.map_cons, List.mem_cons, not_or] at hmem
    rw [extractFields]
    by_cases hk1 : k = "compressed_data"
    · rw [if_pos hk1]
      cases cd with
      | some _ => exact ⟨_, rfl⟩
      | none =>
        cases hb : bytesFromJson v with
        | error e => exact ⟨e, rfl⟩
        | ok bs =>
          simp only [extractCdStep]
          exact ih (some bs) hmem.2
    · rw [if_neg hk1, if_neg (fun h => hmem.1 h.symm)]
      exact ih cd hmem.2

/-- The field loop only looks at the two known field names: filtering the
members down to those names does not change its result. -/
theorem extractFields_filter (fields : List (String × Json)) :
    ∀ cd md,
      extractFields fields cd md =
        extractFields (fields.filter
          (fun p => decide (p.1 = "compressed_data") || decide (p.1 = "metadata"))) cd md := by
  induction fields with
  | nil => intro cd md; rfl
  | cons kv fields ih =>
    obtain ⟨k, v⟩ := kv
    intro cd md
    by_cases h1 : k = "compressed_data"
    · rw [List.filter_cons_of_pos (by simp [h1])]
      rw [extractFields, extractFields]
      rw [if_pos h1, if_pos h1]
      cases cd with
      | some _ => rfl
      | none =>
        cases hb : bytesFromJson v with
        | error e => rfl
        | ok bs =>
          simp only [extractCdStep]
          exact ih (some bs) md
    · by_cases h2 : k = "metadata"
      · rw [List.filter_cons_of_pos (by simp [h2])]
        rw [extractFields, extractFields]
        rw [if_neg h1, if_neg h1, if_pos h2, if_pos h2]
        cases md with
        | some _ => rfl
        | none =>
          cases hs : strFromJson v with
          | error e => rfl
          | ok s =>
            simp only [extractMdStep]
            exact ih cd (some s)
      · rw [List.filter_cons_of_neg (by simp [h1, h2])]
        rw [extractFields]
        rw [if_neg h1, if_neg h2]
        exact ih cd md

/-- The serde field loop with the two members in the reverse order. -/
theorem extractFields_md_first (bs : List Nat) (md : String) (h : ∀ b ∈ bs, b < 256) :
    extractFields [("metadata", .str md), ("compressed_data", .arr (bs.map jnum))] none none =
      .ok { compressed_data := bs, metadata := md } := by
  rw [extractFields]
  rw [if_neg (by decide), if_pos rfl]
  simp only [strFromJson, extractMdStep]
  rw [extractFields]
  rw [if_pos rfl]
  simp only [bytesFromJson]
  rw [u8ListFromJson_map bs h]
  simp only [extractCdStep]
  rw [extractFields]
  rfl

/-! ## Claim theorems -/

/-- C1: for every valid UTF-8 string `s` (including the empty string and
strings with multi-byte code points), expanding the result of compressing
`s` with the built-in zlib codec succeeds and returns `s` exactly. -/
theorem C1_zlib_string_roundtrip (s : String) :
    (ZlibCompressor.compress s).bind ZlibExpander.expand = .ok s := by
  rw [ZlibCompressor.compress, Except.bind]
  rw [ZlibExpander.expand, zlibInflate_zlibDeflate]
  simp only []
  rw [utf8Decode_utf8Encode]

/-- C3: on any byte sequence that does not inflate as zlib data, or whose
inflated bytes are not valid UTF-8, `ZlibExpander::expand` returns an
`ExpansionError` carrying a nonempty human-readable cause string; it does
not return a success value. -/
theorem C3_expand_rejects_invalid (bs : List Nat) (h : validExpandInput bs = false) :
    ∃ msg, ZlibExpander.expand bs = .error (.ExpansionError msg) ∧ msg ≠ "" := by
  rw [validExpandInput] at h
  rw [ZlibExpander.expand]
  cases hz : zlibInflate bs with
  | error e =>
    simp only []
    refine ⟨e, rfl, ?_⟩
    rw [zlibInflate_error_msg bs e hz]
    decide
  | ok d =>
    rw [hz] at h
    simp only [] at h
    simp only []
    cases hu : utf8Decode d with
    | none => exact ⟨_, rfl, by decide⟩
    | some cs => rw [hu] at h; simp at h

/-- C3 witness: a concrete rejected input for each failure mode — `[0, 0]`
is not a zlib stream, and the zlib stream holding the single byte `0xFF`
inflates but is not UTF-8. -/
theorem C3_expand_rejects_invalid_witness :
    (∃ msg, ZlibExpander.expand [0, 0] = .error (.ExpansionError msg) ∧ msg ≠ "") ∧
    (∃ msg, ZlibExpander.expand (zlibDeflate [0xFF]) = .error (.ExpansionError msg) ∧ msg ≠ "") :=
  ⟨C3_expand_rejects_invalid [0, 0] (by decide),
   C3_expand_rejects_invalid (zlibDeflate [0xFF]) (by decide)⟩

/-- C4: `MemoryModule::new(context, c)` is `c.compress(context)` with the
bytes wrapped into a module whose metadata is the empty string; it fails
exactly when the compress call fails and propagates that same error
value. -/
theorem C4_new_wraps_compress (context : String) (compressor : Compressor) :
    MemoryModule.new context compressor =
      (compressor context).map (fun bs => { compressed_data := bs, metadata := "" }) := by
  rw [MemoryModule.new]
  cases compressor context <;> rfl

/-- C5: `set_metadata` replaces the metadata field unconditionally, leaves
`compressed_data` unchanged, and therefore leaves the result of `expand`
unchanged for every expander. -/
theorem C5_metadata_independence (m : MemoryModule) (x : String) :
    (m.set_metadata x).metadata = x ∧
    (m.set_metadata x).compressed_data = m.compressed_data ∧
    ∀ e : Expander, (m.set_metadata x).expand e = m.expand e :=
  ⟨rfl, rfl, fun _ => rfl⟩

/-- C8: `ZlibCompressor::compress` is total over strings — it always
returns `Ok` (writing through a `ZlibEncoder` into an in-memory `Vec`
cannot hit an I/O failure) — and deterministic: the result is the one
byte sequence computed by the pure deflate model from the input, so two
invocations on equal inputs return equal byte sequences. -/
theorem C8_compress_total_deterministic (s : String) :
    ZlibCompressor.compress s = .ok (zlibDeflate (utf8Encode s.data)) :=
  rfl

/-- C9: retrieving a path right after storing bytes to it returns exactly
the stored bytes (the filesystem is modelled as a path-to-contents map;
`File::create` truncates, so the store overwrites the location). -/
theorem C9_storage_roundtrip (fs : FileSystem) (path : String) (data : List Nat) :
    retrieve_module (store_module fs path data) path = .ok data := by
  simp [retrieve_module, store_module]

/-- C2: serializing any constructed module (its `compressed_data` is a
`Vec<u8>`, so all bytes are below 256) with `to_json` succeeds,
deserializing that text with `from_json` succeeds, and the deserialized
module's `expand` result equals the original's for every expander. -/
theorem C2_serialization_roundtrip (m : MemoryModule) (h : ∀ b ∈ m.compressed_data, b < 256) :
    ∃ t m2, m.to_json = .ok t ∧ MemoryModule.from_json t = .ok m2 ∧
      ∀ e : Expander, m2.expand e = m.expand e :=
  ⟨String.mk (printModule m), m, rfl, from_json_printModule m h, fun _ => rfl⟩

/-- C2 witness: the round trip at the concrete module with payload
`[1, 2, 3]` and metadata `"zlib"`. -/
theorem C2_serialization_roundtrip_witness :
    ∃ t m2, ({ compressed_data := [1, 2, 3], metadata := "zlib" } : MemoryModule).to_json =
        .ok t ∧ MemoryModule.from_json t = .ok m2 ∧
      ∀ e : Expander, m2.expand e =
        ({ compressed_data := [1, 2, 3], metadata := "zlib" } : MemoryModule).expand e :=
  C2_serialization_roundtrip { compressed_data := [1, 2, 3], metadata := "zlib" } (by decide)

/-- C6: `from_json` surfaces a `SerializationError` whenever the text does
not parse as JSON, and whenever the parsed object lacks one of the two
required fields; and its success performs no validation of the
`compressed_data` payload — deserializing a serialized module succeeds
for every byte payload, expandable or not. -/
theorem C6_from_json_error_handling :
    (∀ text e, jsonParse text = .error e →
      MemoryModule.from_json text = .error (.SerializationError e)) ∧
    (∀ text fields, jsonParse text = .ok (.obj fields) →
      "compressed_data" ∉ fields.map Prod.fst ∨ "metadata" ∉ fields.map Prod.fst →
      ∃ msg, MemoryModule.from_json text = .error (.SerializationError msg)) ∧
    (∀ bs md, (∀ b ∈ bs, b < 256) →
      MemoryModule.from_json
          (String.mk (printModule { compressed_data := bs, metadata := md })) =
        .ok { compressed_data := bs, metadata := md }) := by
  refine ⟨fun text e h => ?_, fun text fields hp hmiss => ?_, fun bs md h => ?_⟩
  · rw [MemoryModule.from_json, h]
  · rw [MemoryModule.from_json, hp]
    simp only []
    cases hmiss with
    | inl hcd =>
      obtain ⟨msg, hm⟩ := extractFields_no_cd fields none hcd
      rw [hm]
      exact ⟨msg, rfl⟩
    | inr hmd =>
      obtain ⟨msg, hm⟩ := extractFields_no_md fields none hmd
      rw [hm]
      exact ⟨msg, rfl⟩
  · exact from_json_printModule { compressed_data := bs, metadata := md } h

/-- C6 witness: `"not json"` is malformed; an object with only `metadata`
is missing a required field; and a module whose payload `[0, 1]` is not
expandable still deserializes. -/
theorem C6_from_json_error_handling_witness :
    MemoryModule.from_json "not json" = .error (.SerializationError "expected ident") ∧
    (∃ msg, MemoryModule.from_json "\x7b\"metadata\":\"x\"\x7d" =
      .error (.SerializationError msg)) ∧
    MemoryModule.from_json
        (String.mk (printModule { compressed_data := [0, 1], metadata := "" })) =
      .ok { compressed_data := [0, 1], metadata := "" } :=
  ⟨C6_from_json_error_handling.1 "not json" "expected ident" rfl,
   C6_from_json_error_handling.2.1 "\x7b\"metadata\":\"x\"\x7d" [("metadata", .str "x")] rfl
     (Or.inl (by decide)),
   C6_from_json_error_handling.2.2 [0, 1] "" (by decide)⟩

/-- C7: `to_json` is total — it returns a success value for every
constructed module, and its `SerializationError` branch is unreachable
(serde_json cannot fail on a struct of a byte vector and a string). -/
theorem C7_to_json_total (m : MemoryModule) :
    (∃ t, m.to_json = .ok t) ∧ ∀ e, ¬ m.to_json = .error e :=
  ⟨⟨String.mk (printModule m), rfl⟩, fun _ h => Except.noConfusion h⟩

/-- C10: `from_json` ignores unknown fields (serde's default): any JSON
object whose members named `compressed_data`/`metadata` are exactly one
valid byte array and one string, in either order, deserializes to the
module built from those two fields, whatever other members it carries. -/
theorem C10_unknown_fields_ignored (text : String) (fields : List (String × Json))
    (bs : List Nat) (md : String)
    (hparse : jsonParse text = .ok (.obj fields))
    (hbs : ∀ b ∈ bs, b < 256)
    (hfilter :
      fields.filter (fun p => decide (p.1 = "compressed_data") || decide (p.1 = "metadata")) =
        [("compressed_data", .arr (bs.map jnum)), ("metadata", .str md)] ∨
      fields.filter (fun p => decide (p.1 = "compressed_data") || decide (p.1 = "metadata")) =
        [("metadata", .str md), ("compressed_data", .arr (bs.map jnum))]) :
    MemoryModule.from_json text = .ok { compressed_data := bs, metadata := md } := by
  rw [MemoryModule.from_json, hparse]
  simp only []
  rw [extractFields_filter fields none none]
  cases hfilter with
  | inl hf => rw [hf, extractFields_canonical bs md hbs]
  | inr hf => rw [hf, extractFields_md_first bs md hbs]

/-- C10 witness: a concrete object carrying an extra unknown field
`"extra"` after the two known fields. -/
theorem C10_unknown_fields_ignored_witness :
    MemoryModule.from_json
        "\x7b\"compressed_data\":[1],\"metadata\":\"m\",\"extra\":7\x7d" =
      .ok { compressed_data := [1], metadata := "m" } :=
  C10_unknown_fields_ignored
    "\x7b\"compressed_data\":[1],\"metadata\":\"m\",\"extra\":7\x7d"
    [("compressed_data", .arr [.num 1]), ("metadata", .str "m"), ("extra", .num 7)]
    [1] "m" rfl (by decide) (Or.inl rfl)

end Streamliner
